import Mathlib

/-!
Shallow embedding of the label-encoding, prediction-decoding and
cross-backend comparison logic of the bluesharpbendingapp training
pipeline (docs/scripts/model_evaluation.py, model_training.py,
compare_tf_onnx_models.py, feature_extraction.py).

Python strings are modelled as `List Char`; Python `%` on nonnegative
ints is ordinary `Nat` arithmetic; Python exceptions are modelled with
`Except Unit`.  NUM_CLASSES = 96 and OCTAVE_RANGE = 8 as in the sources.
-/

deriving instance DecidableEq for Except

namespace BlueSharp

/-- Python `c.isdigit()` restricted to ASCII, the only characters produced
by the pipeline's file names and labels. -/
def pyIsDigit (c : Char) : Bool := '0' ≤ c && c ≤ '9'

/-- Python `c.isalpha()` restricted to ASCII. -/
def pyIsAlpha (c : Char) : Bool := ('A' ≤ c && c ≤ 'Z') || ('a' ≤ c && c ≤ 'z')

/-- Python membership test `c in s` for a single character. -/
def pyElem (c : Char) : List Char → Bool
  | [] => false
  | x :: xs => x = c || pyElem c xs

/-- Python `c in 'ABCDEFG'` for a single character. -/
def isNoteLetter (c : Char) : Bool :=
  pyElem c ['A', 'B', 'C', 'D', 'E', 'F', 'G']

/-- Python `s.split(sep)` for a one-character separator: always returns at
least one (possibly empty) part, one extra part per separator occurrence. -/
def pySplit (sep : Char) : List Char → List (List Char)
  | [] => [[]]
  | c :: cs =>
    if c = sep then [] :: pySplit sep cs
    else
      match pySplit sep cs with
      | [] => [[c]]
      | p :: ps => (c :: p) :: ps

/-- Evaluation-side `note_map = {'C': 0, 'D': 2, 'E': 4, 'F': 5, 'G': 7,
'A': 9, 'B': 11}` from model_evaluation.py `process_labels`, keyed by the
single first character of a token. -/
def note_map_eval (c : Char) : Option ℕ :=
  match c with
  | 'C' => some 0
  | 'D' => some 2
  | 'E' => some 4
  | 'F' => some 5
  | 'G' => some 7
  | 'A' => some 9
  | 'B' => some 11
  | _ => none

/-- The 17-entry semitone dictionary used both as `key_map` (key_tuning
labels in model_evaluation.py and model_training.py) and as the training
`note_map` of model_training.py `process_labels`. -/
def full_note_map : List (List Char × ℕ) :=
  [("C".data, 0), ("C#".data, 1), ("Db".data, 1),
   ("D".data, 2), ("D#".data, 3), ("Eb".data, 3),
   ("E".data, 4),
   ("F".data, 5), ("F#".data, 6), ("Gb".data, 6),
   ("G".data, 7), ("G#".data, 8), ("Ab".data, 8),
   ("A".data, 9), ("A#".data, 10), ("Bb".data, 10),
   ("B".data, 11)]

/-- Python dict lookup `d[k]` guarded by `k in d`, over the assoc-list
model of the dictionary. -/
def dictLookup (d : List (List Char × ℕ)) (k : List Char) : Option ℕ :=
  (d.find? (fun p => p.1 == k)).map (fun p => p.2)

/-- Evaluation-side resolution of a single note token split as first
character plus the rest: octave is the first digit found after the first
character (default 4, then clamped via `max(0, min(octave, OCTAVE_RANGE - 1))`);
the first `#` or `b` after the first character raises or lowers the base
semitone by one mod 12 (Python `(x - 1) % 12` on `0 ≤ x < 12` equals
`(x + 11) % 12`); an unrecognized first character yields the fallback 48.
Models the shared body of the chord branch (applied to `first_note`) and
the note branch (applied to the whole label) of model_evaluation.py
`process_labels`. -/
def resolveTokenEval (c0 : Char) (rest : List Char) : ℕ :=
  let octave0 : ℕ :=
    match rest.find? pyIsDigit with
    | some d => d.toNat - 48
    | none => 4
  let octave : ℕ := max 0 (min octave0 7)
  match note_map_eval c0 with
  | some base =>
    let semitone : ℕ :=
      match rest.find? (fun ch => ch = '#' || ch = 'b') with
      | some ch => if ch = '#' then (base + 1) % 12 else (base + 11) % 12
      | none => base
    semitone + octave * 12
  | none => 48

/-- Python `all(part[0] in 'ABCDEFG' for part in label.split('-'))`,
including the `IndexError` raised when an empty part is reached before a
failing part (`all` short-circuits on the first `False`). -/
def partsGuard : List (List Char) → Except Unit Bool
  | [] => .ok true
  | p :: ps =>
    match p with
    | [] => .error ()
    | c :: _ => if isNoteLetter c then partsGuard ps else .ok false

/-- Evaluation-side note-or-fallback branch: a label starting with one of
`C D E F G A B` is resolved as a note token, anything else falls back to
class 48. -/
def noteOrFallbackEval (L : List Char) : ℕ :=
  match L with
  | c :: rest => if isNoteLetter c then resolveTokenEval c rest else 48
  | [] => 48

/-- Single class index resolved for one string label by
model_evaluation.py `process_labels` (the loop body for `str` labels);
`.error ()` models the `IndexError` raised by the hyphen guard on an
empty part. -/
def process_label_str_eval (L : List Char) : Except Unit ℕ :=
  if pyElem '-' L then
    match partsGuard (pySplit '-' L) with
    | .error e => .error e
    | .ok true =>
      match pySplit '-' L with
      | [] => .ok 48
      | first_note :: _ =>
        match first_note with
        | [] => .ok 48
        | c :: rest => .ok (resolveTokenEval c rest)
    | .ok false => .ok (noteOrFallbackEval L)
  else .ok (noteOrFallbackEval L)

/-- Raw label shapes reaching `process_labels`: a string, a dict carrying
a `'key'` entry, a dict without one, or any other Python value. -/
inductive RawLabel where
  | str (s : List Char)
  | keyDict (k : List Char)
  | noKeyDict
  | other
deriving DecidableEq

/-- Class index appended for one raw label by model_evaluation.py
`process_labels`: key dicts use the 12-semitone system (index 0..11),
strings go through the note/chord logic, everything else falls back
to 48. -/
def process_label_eval : RawLabel → Except Unit ℕ
  | .keyDict k =>
    if k ≠ "unknown".data then
      match dictLookup full_note_map k with
      | some s => .ok s
      | none => .ok 0
    else .ok 0
  | .noKeyDict => .ok 0
  | .str s => process_label_str_eval s
  | .other => .ok 48

/-- Training-side resolution of a single note string by model_training.py
`process_labels`: the note name is the longest alphabetic/accidental run
from the start of the string, the octave is the first digit after that
run (default 4, clamped into `[0, OCTAVE_RANGE - 1]`), and the name is
looked up in the 17-entry `note_map`; an unrecognized name yields the
fallback 48.  Shared verbatim between the chord-constituent loop and the
single-label branch. -/
def resolveTokenTrain (note_str : List Char) : ℕ :=
  let note_name := note_str.takeWhile (fun c => pyIsAlpha c || c = '#' || c = 'b')
  let octave0 : ℕ :=
    match (note_str.drop note_name.length).find? pyIsDigit with
    | some d => d.toNat - 48
    | none => 4
  let octave : ℕ := max 0 (min octave0 7)
  match dictLookup full_note_map note_name with
  | some semitone => semitone + octave * 12
  | none => 48

/-- Training-side note-or-fallback branch: a label starting with one of
`C D E F G A B` goes through `resolveTokenTrain`, anything else activates
only the fallback class 48. -/
def noteOrFallbackTrain (L : List Char) : Finset ℕ :=
  match L with
  | c :: _ => if isNoteLetter c then {resolveTokenTrain L} else {48}
  | [] => {48}

/-- Set of class indices activated (set to 1.0) in the multi-hot row for
one string label by model_training.py `process_labels`; `.error ()`
models the `IndexError` raised by the hyphen guard on an empty part. -/
def process_label_str_train (L : List Char) : Except Unit (Finset ℕ) :=
  if pyElem '-' L then
    match partsGuard (pySplit '-' L) with
    | .error e => .error e
    | .ok true => .ok ((pySplit '-' L).map resolveTokenTrain).toFinset
    | .ok false => .ok (noteOrFallbackTrain L)
  else .ok (noteOrFallbackTrain L)

/-- Set of class indices activated in the multi-hot row for one raw label
by model_training.py `process_labels`: a recognized key activates one
index per octave 0..7 at its semitone, an unknown/unrecognized key
activates the C class of every octave, strings go through the note/chord
logic, everything else activates only 48. -/
def process_label_train : RawLabel → Except Unit (Finset ℕ)
  | .keyDict k =>
    if k ≠ "unknown".data then
      match dictLookup full_note_map k with
      | some s => .ok ((Finset.range 8).image (fun octave => s + octave * 12))
      | none => .ok ((Finset.range 8).image (fun octave => octave * 12))
    else .ok ((Finset.range 8).image (fun octave => octave * 12))
  | .noKeyDict => .ok ((Finset.range 8).image (fun octave => octave * 12))
  | .str s => process_label_str_train s
  | .other => .ok {48}

/-- Note-name table `NOTE_NAMES = ['C', 'C#', 'D', 'D#', 'E', 'F', 'F#',
'G', 'G#', 'A', 'A#', 'B']` shared by model_evaluation.py and
compare_tf_onnx_models.py. -/
def NOTE_NAMES : List (List Char) :=
  ["C".data, "C#".data, "D".data, "D#".data, "E".data, "F".data,
   "F#".data, "G".data, "G#".data, "A".data, "A#".data, "B".data]

/-- Forward class-index computation `class_index = semitone + (octave * 12)`
as written in both `process_labels` implementations. -/
def class_index (semitone octave : ℕ) : ℕ := semitone + octave * 12

/-- Decoder reconstruction `octave = idx // 12, semitone = idx % 12` from
model_evaluation.py `predict_audio_file` and
compare_tf_onnx_models.py `get_top_notes`. -/
def decode_index (idx : ℕ) : ℕ × ℕ := (idx % 12, idx / 12)

/-- Decoded note name `f"{note_names[semitone]}{octave}"` with
`semitone = idx % 12` and `octave = idx // 12`, from
model_evaluation.py `predict_audio_file` and
compare_tf_onnx_models.py `get_top_notes`. -/
def decode_name (idx : ℕ) : List Char :=
  NOTE_NAMES.getD (idx % 12) [] ++ (Nat.repr (idx / 12)).data

/-- Element read `v[i]` on a score vector, modelling a NumPy fancy-index
access that in this pipeline only ever happens in bounds. -/
def vget (v : List ℚ) (i : ℕ) : ℚ := v.getD i 0

/-- Stable insertion of an index into an ascending run. -/
def insertAsc (le : ℕ → ℕ → Bool) (x : ℕ) : List ℕ → List ℕ
  | [] => [x]
  | y :: ys => if le x y then x :: y :: ys else y :: insertAsc le x ys

/-- Insertion sort, the deterministic sorting model used for `np.argsort`. -/
def insertionSort (le : ℕ → ℕ → Bool) : List ℕ → List ℕ
  | [] => []
  | x :: xs => insertAsc le x (insertionSort le xs)

/-- Total order on indices: ascending by score, ascending by index on
equal scores.  Sorting `range` by this order is exactly the stable
ascending argsort. -/
def argsortLe (v : List ℚ) (i j : ℕ) : Bool :=
  decide (vget v i < vget v j ∨ (vget v i = vget v j ∧ i ≤ j))

/-- Model of `np.argsort(v)`: the indices of `v` in ascending score order.
NumPy's default `kind='quicksort'` leaves the relative order of equal
elements unspecified; the deterministic model used here is the stable
ascending argsort (equal scores in ascending index order), the order
NumPy documents for its stable kinds. -/
def np_argsort (v : List ℚ) : List ℕ :=
  insertionSort (argsortLe v) (List.range v.length)

/-- Python slice `l[-n:]` (for `n = 0` Python returns the whole list). -/
def pyLastN {α : Type} (l : List α) (n : ℕ) : List α :=
  if n = 0 then l else l.drop (l.length - n)

/-- Index list `np.argsort(prediction[0])[-n:][::-1]` from
compare_tf_onnx_models.py `get_top_notes`. -/
def top_indices (v : List ℚ) (n : ℕ) : List ℕ :=
  (pyLastN (np_argsort v) n).reverse

/-- Model of compare_tf_onnx_models.py `get_top_notes` on the 96-score
row `prediction[0]`: the decoded names of the top `n` indices and their
confidences. -/
def get_top_notes (v : List ℚ) (n : ℕ) : List (List Char) × List ℚ :=
  ((top_indices v n).map decode_name, (top_indices v n).map (vget v))

/-- NumPy `np.mean` over a flattened array, modelled on rationals. -/
def np_mean (l : List ℚ) : ℚ := l.sum / l.length

/-- Mean absolute error `np.mean(np.abs(a - b))` from
compare_tf_onnx_models.py `compare_predictions`. -/
def np_mae (a b : List ℚ) : ℚ := np_mean (List.zipWith (fun x y => |x - y|) a b)

/-- Mean squared error `np.mean(np.square(a - b))` from
compare_tf_onnx_models.py `compare_predictions`. -/
def np_mse (a b : List ℚ) : ℚ := np_mean (List.zipWith (fun x y => (x - y) ^ 2) a b)

/-- Sum of products of deviations from the mean, the shared numerator and
squared-denominator building block of `np.corrcoef`. -/
def devSum (a b : List ℚ) : ℚ :=
  (List.zipWith (fun x y => (x - np_mean a) * (y - np_mean b)) a b).sum

/-- Pearson coefficient `np.corrcoef(a, b)[0, 1]`: deviation-product sum
over the product of deviation norms (the ddof normalisation cancels).
NumPy returns NaN when either vector has zero variance (a 0/0 division);
NaN is modelled as `none`. -/
noncomputable def np_corrcoef (a b : List ℚ) : Option ℝ :=
  if devSum a a = 0 ∨ devSum b b = 0 then none
  else some ((devSum a b : ℝ) / (Real.sqrt (devSum a a) * Real.sqrt (devSum b b)))

/-- Comparison report of compare_tf_onnx_models.py `compare_predictions`
(the fields derived from the two score rows; the raw top-note lists of
the source dict are recoverable from `get_top_notes`). -/
structure ComparisonResult where
  mae : ℚ
  mse : ℚ
  correlation : Option ℝ
  overlap : ℕ
  overlap_percentage : ℚ
  top_note_match : Bool

/-- Model of compare_tf_onnx_models.py `compare_predictions` on the two
96-score rows: elementwise mean errors, Pearson coefficient, size of the
intersection of the two top-5 name sets, and equality of the two top-1
names (`tf_top_notes[0] == onnx_top_notes[0]`; Python indexes position 0,
which exists for the 96-length rows this function receives, so it is
modelled with a default). -/
noncomputable def compare_predictions (a b : List ℚ) : ComparisonResult :=
  let tf_top_notes := (get_top_notes a 5).1
  let onnx_top_notes := (get_top_notes b 5).1
  let overlap := (tf_top_notes.toFinset ∩ onnx_top_notes.toFinset).card
  { mae := np_mae a b
    mse := np_mse a b
    correlation := np_corrcoef a b
    overlap := overlap
    overlap_percentage := (overlap : ℚ) / 5 * 100
    top_note_match := tf_top_notes.headD [] == onnx_top_notes.headD [] }

/-- Python substring test `pat in s`. -/
def pySubstr (pat : List Char) : List Char → Bool
  | [] => pat.isPrefixOf []
  | c :: cs => pat.isPrefixOf (c :: cs) || pySubstr pat cs

/-- POSIX `os.path.basename`: the part of the path after the last slash. -/
def pyBasename (p : List Char) : List Char :=
  (p.reverse.takeWhile (fun c => c ≠ '/')).reverse

/-- POSIX `os.path.dirname`: the part up to and including the last slash,
with trailing slashes stripped unless the head is all slashes. -/
def pyDirname (p : List Char) : List Char :=
  let head := (p.reverse.dropWhile (fun c => c ≠ '/')).reverse
  if head ≠ [] ∧ ¬head.all (fun c => c = '/') then
    (head.reverse.dropWhile (fun c => c = '/')).reverse
  else head

/-- Python `part[:-4] if part.endswith('.wav') else part` from the note
branch of feature_extraction.py `get_label_from_path`. -/
def stripWav (part : List Char) : List Char :=
  if ".wav".data.isSuffixOf part then part.take (part.length - 4) else part

/-- Python `s.isdigit()` on a string: nonempty and all digits. -/
def pyIsDigitStr (l : List Char) : Bool := !l.isEmpty && l.all pyIsDigit

/-- First underscore-separated part (extension-stripped) of length at
least 2 whose head is in `A..G` and whose tail is all digits or starts
with an accidental; models the first scanning loop of the note branch of
feature_extraction.py `get_label_from_path`. -/
def noteFromParts : List (List Char) → Option (List Char)
  | [] => none
  | part :: rest =>
    let p := stripWav part
    match p with
    | c :: c1 :: _ =>
      if isNoteLetter c && (pyIsDigitStr (p.drop 1) || c1 = '#' || c1 = 'b') then
        some p
      else noteFromParts rest
    | _ => noteFromParts rest

/-- First extension-stripped part starting with a note letter; models the
more aggressive `single_notes` fallback loop of the note branch of
feature_extraction.py `get_label_from_path`. -/
def noteLoose : List (List Char) → Option (List Char)
  | [] => none
  | part :: rest =>
    match stripWav part with
    | c :: cs => if isNoteLetter c then some (c :: cs) else noteLoose rest
    | [] => noteLoose rest

/-- Python `remaining.split('_')[0]` or `remaining.split('.')[0]` from the
`chord_`-prefixed branch of feature_extraction.py `get_label_from_path`
(the source computes this same expression in both its hyphen and
no-hyphen sub-branches). -/
def chordPart (remaining : List Char) : List Char :=
  if pyElem '_' remaining then (pySplit '_' remaining).headD []
  else (pySplit '.' remaining).headD []

/-- Python `filename.replace('.wav', '')`: removes every occurrence of
the literal `.wav`, scanning left to right. -/
def removeDotWav : List Char → List Char
  | '.' :: 'w' :: 'a' :: 'v' :: rest => removeDotWav rest
  | c :: cs => c :: removeDotWav cs
  | [] => []

/-- First part that contains a hyphen and at least one note letter;
models the chord-pattern scanning loop of feature_extraction.py
`get_label_from_path`. -/
def chordPatternPart (parts : List (List Char)) : Option (List Char) :=
  parts.find? (fun part =>
    pyElem '-' part &&
      (['A', 'B', 'C', 'D', 'E', 'F', 'G'] : List Char).any (fun note => pyElem note part))

/-- First part that starts with a note letter followed by a digit or
accidental; models the last-resort loop of the chord branch of
feature_extraction.py `get_label_from_path` (reached only when the path
mentions a `chords` directory). -/
def findNotePattern : List (List Char) → Option (List Char)
  | [] => none
  | part :: rest =>
    match part with
    | c :: c1 :: _ =>
      if isNoteLetter c && (pyIsDigit c1 || c1 = '#' || c1 = 'b') then some part
      else findNotePattern rest
    | _ => findNotePattern rest

/-- Model of feature_extraction.py `get_label_from_path`: derives the raw
label (note string, chord string, or key dict) from the path and the
requested taxonomy.  Every branch, including the unknown-taxonomy default
at the end of the function, returns a value; no path through the source
raises. -/
def get_label_from_path (audio_path : List Char) (label_type : List Char) : RawLabel :=
  let filename := pyBasename audio_path
  let parent_dir := pyBasename (pyDirname audio_path)
  let grandparent_dir := pyBasename (pyDirname (pyDirname audio_path))
  if label_type = "note".data then
    let parts := pySplit '_' filename
    match (if 2 ≤ parts.length then noteFromParts parts else none) with
    | some p => .str p
    | none =>
      if pySubstr "single_notes".data audio_path then
        match noteLoose parts with
        | some p => .str p
        | none => .str "unknown".data
      else .str "unknown".data
  else if label_type = "chord".data then
    if "chord_".data.isPrefixOf filename then
      .str (chordPart (filename.drop 6))
    else
      let parts := pySplit '_' (removeDotWav filename)
      match chordPatternPart parts with
      | some part => .str part
      | none =>
        if pySubstr "chords".data audio_path then
          match findNotePattern parts with
          | some part => .str part
          | none => .str "unknown".data
        else .str "unknown".data
  else if label_type = "key_tuning".data then
    if "key_".data.isPrefixOf grandparent_dir then
      .keyDict (grandparent_dir.drop 4)
    else if "key_".data.isPrefixOf parent_dir then
      .keyDict (parent_dir.drop 4)
    else
      match (pySplit '_' filename).find? (fun part => "key_".data.isPrefixOf part) with
      | some part => .keyDict (part.drop 4)
      | none => .keyDict "unknown".data
  else
    .str "unknown".data




/-! Helper lemmas about the Python-string primitives. -/

theorem pyElem_iff (c : Char) (l : List Char) : pyElem c l = true ↔ c ∈ l := by
  induction l with
  | nil => simp [pyElem]
  | cons x xs ih =>
    simp only [pyElem, Bool.or_eq_true, decide_eq_true_eq, ih, List.mem_cons]
    constructor
    · rintro (h | h)
      exacts [Or.inl h.symm, Or.inr h]
    · rintro (h | h)
      exacts [Or.inl h.symm, Or.inr h]

theorem pySplit_cons_self (sep : Char) (cs : List Char) :
    pySplit sep (sep :: cs) = [] :: pySplit sep cs := by
  simp [pySplit]

theorem pySplit_ne_nil (sep : Char) (l : List Char) : pySplit sep l ≠ [] := by
  cases l with
  | nil => simp [pySplit]
  | cons c cs =>
    by_cases h : c = sep
    · simp [pySplit, h]
    · simp only [pySplit, if_neg h]
      cases hcs : pySplit sep cs <;> simp

theorem pySplit_cons_of_ne (sep c : Char) (cs : List Char) (h : c ≠ sep) :
    ∃ p ps, pySplit sep cs = p :: ps ∧ pySplit sep (c :: cs) = (c :: p) :: ps := by
  cases hcs : pySplit sep cs with
  | nil => exact absurd hcs (pySplit_ne_nil sep cs)
  | cons p ps => exact ⟨p, ps, rfl, by simp [pySplit, h, hcs]⟩

theorem sep_not_mem_pySplit (sep : Char) : ∀ l : List Char, ∀ p ∈ pySplit sep l, sep ∉ p := by
  intro l
  induction l with
  | nil =>
    intro p hp
    simp [pySplit] at hp
    simp [hp]
  | cons c cs ih =>
    intro p hp
    by_cases h : c = sep
    · subst h
      rw [pySplit_cons_self, List.mem_cons] at hp
      rcases hp with h1 | h2
      · simp [h1]
      · exact ih p h2
    · rcases pySplit_cons_of_ne sep c cs h with ⟨q, qs, hq, hsplit⟩
      rw [hsplit] at hp
      rcases List.mem_cons.mp hp with h1 | h2
      · subst h1
        intro hmem
        rcases List.mem_cons.mp hmem with h3 | h4
        · exact h h3.symm
        · exact ih q (by rw [hq]; exact List.mem_cons_self q qs) h4
      · exact ih p (by rw [hq]; exact List.mem_cons.mpr (Or.inr h2))

theorem partsGuard_ok_true :
    ∀ parts : List (List Char),
      (∀ q ∈ parts, ∃ c cs, q = c :: cs ∧ isNoteLetter c = true) →
      partsGuard parts = .ok true := by
  intro parts
  induction parts with
  | nil => intro _; rfl
  | cons p ps ih =>
    intro h
    rcases h p (List.mem_cons_self p ps) with ⟨c, cs, rfl, hc⟩
    simp only [partsGuard, hc, if_pos]
    exact ih (fun q hq => h q (List.mem_cons.mpr (Or.inr hq)))

/-- C1: the class index `s + 12*o` of a semitone `s ≤ 11` and octave
`o ≤ 7` lies in `0..95`, the mapping is a bijection onto `0..95` whose
inverse is `semitone = index % 12, octave = index // 12`, and the token
`A#3` resolves to index 46, which decodes back to semitone 10, octave 3
and the name `A#3`. -/
theorem class_index_bijection_round_trip :
    (∀ s o : ℕ, s ≤ 11 → o ≤ 7 → class_index s o ≤ 95) ∧
    (∀ s o : ℕ, s ≤ 11 → o ≤ 7 → decode_index (class_index s o) = (s, o)) ∧
    (∀ i : ℕ, i ≤ 95 →
      (decode_index i).1 ≤ 11 ∧ (decode_index i).2 ≤ 7 ∧
        class_index (decode_index i).1 (decode_index i).2 = i) ∧
    process_label_str_eval "A#3".data = .ok 46 ∧
    decode_index 46 = (10, 3) ∧
    decode_name 46 = "A#3".data := by
  refine ⟨?_, ?_, ?_, by decide, by decide, by decide⟩
  · intro s o hs ho
    simp only [class_index]
    omega
  · intro s o hs ho
    simp only [class_index, decode_index, Prod.mk.injEq]
    constructor <;> omega
  · intro i hi
    simp only [class_index, decode_index]
    refine ⟨?_, ?_, ?_⟩ <;> omega

theorem class_index_bijection_round_trip_witness :
    decode_index (class_index 10 3) = (10, 3) ∧
    class_index (decode_index 46).1 (decode_index 46).2 = 46 :=
  ⟨class_index_bijection_round_trip.2.1 10 3 (by decide) (by decide),
   (class_index_bijection_round_trip.2.2.1 46 (by decide)).2.2⟩

/-- C6: the claim that `G7` resolves to octave 4 (class 55) is false: the
evaluation encoder scans the suffix for a digit, takes `7` as the octave,
and yields class 91. -/
theorem legacy_chord_counterexample :
    process_label_str_eval "G7".data = .ok 91 ∧
    (Except.ok 91 : Except Unit ℕ) ≠ .ok 55 := by decide

/-- C6 amended: a legacy bare chord token is encoded from its first
character (plus an optional accidental) with the quality suffix discarded
for the semitone, but a digit anywhere in the suffix is taken as the
octave; the octave defaults to 4 only when no digit occurs.  So `Cmaj`
resolves to semitone 0, octave 4 (class 48) while `G7` resolves to
semitone 7, octave 7 (class 91). -/
theorem legacy_chord_amended :
    process_label_str_eval "Cmaj".data = .ok 48 ∧
    process_label_str_eval "G7".data = .ok 91 ∧
    decode_index 48 = (0, 4) ∧
    decode_index 91 = (7, 7) := by decide

/-- C2: the claim that every unrecognized label resolves to class 48 and
never raises is false: a key dict with an unknown key resolves to class 0,
and a hyphen label with an empty part raises an IndexError in the
`all(part[0] in 'ABCDEFG' ...)` guard. -/
theorem unknown_fallback_counterexample :
    process_label_eval (RawLabel.keyDict "H".data) = .ok 0 ∧
    (Except.ok 0 : Except Unit ℕ) ≠ .ok 48 ∧
    process_label_eval (RawLabel.str "C4-".data) = .error () := by decide

/-- C2 amended: a string label whose first character is not in `A..G`
(including the empty string) resolves to the fallback class 48 without
raising in both encoders, provided no hyphen-split part is empty, and a
non-string non-dict label also resolves to 48; a key dict with an
unknown or unrecognized key instead resolves to class 0 (the C semitone),
and a hyphen label with an empty part raises. -/
theorem unknown_fallback_amended :
    process_label_str_eval [] = .ok 48 ∧
    (∀ c cs, isNoteLetter c = false →
      (∀ q ∈ pySplit '-' (c :: cs), q ≠ []) →
      process_label_str_eval (c :: cs) = .ok 48) ∧
    (∀ c cs, isNoteLetter c = false →
      (∀ q ∈ pySplit '-' (c :: cs), q ≠ []) →
      process_label_str_train (c :: cs) = .ok {48}) ∧
    process_label_eval RawLabel.other = .ok 48 ∧
    process_label_train RawLabel.other = .ok {48} ∧
    process_label_eval (RawLabel.keyDict "H".data) = .ok 0 ∧
    process_label_eval (RawLabel.str ('-' :: "C4".data)) = .error () := by
  have key : ∀ c cs, isNoteLetter c = false →
      (∀ q ∈ pySplit '-' (c :: cs), q ≠ []) →
      partsGuard (pySplit '-' (c :: cs)) = .ok false ∧ c ≠ '-' := by
    intro c cs hc hparts
    have hcne : c ≠ '-' := by
      intro h
      subst h
      exact hparts [] (by simp [pySplit]) rfl
    rcases pySplit_cons_of_ne '-' c cs hcne with ⟨p, ps, _, hsplit⟩
    refine ⟨?_, hcne⟩
    rw [hsplit]
    simp [partsGuard, hc]
  refine ⟨by decide, ?_, ?_, by decide, by decide, by decide, by decide⟩
  · intro c cs hc hparts
    rcases key c cs hc hparts with ⟨hguard, _⟩
    by_cases hdash : pyElem '-' (c :: cs) = true
    · simp [process_label_str_eval, hdash, hguard, noteOrFallbackEval, hc]
    · rw [Bool.not_eq_true] at hdash
      simp [process_label_str_eval, hdash, noteOrFallbackEval, hc]
  · intro c cs hc hparts
    rcases key c cs hc hparts with ⟨hguard, _⟩
    by_cases hdash : pyElem '-' (c :: cs) = true
    · simp [process_label_str_train, hdash, hguard, noteOrFallbackTrain, hc]
    · rw [Bool.not_eq_true] at hdash
      simp [process_label_str_train, hdash, noteOrFallbackTrain, hc]

theorem unknown_fallback_amended_witness :
    process_label_str_eval ('X' :: "!".data) = .ok 48 ∧
    process_label_str_train ('X' :: "!".data) = .ok {48} :=
  ⟨unknown_fallback_amended.2.1 'X' "!".data (by decide) (by decide),
   unknown_fallback_amended.2.2.1 'X' "!".data (by decide) (by decide)⟩

/-- C3: a hyphen-joined chord token whose parts all start with a letter
in `A..G` is assigned the class index of its first (root) note token
alone by the evaluation encoder; concretely `C4` and `C4-E4-G4` both map
to 48, while `D4-G4` maps to 50 and `D6-G6` maps to 74. -/
theorem chord_root_reduction :
    (∀ (L p : List Char) (ps : List (List Char)),
      pySplit '-' L = p :: ps →
      pyElem '-' L = true →
      (∀ q ∈ p :: ps, ∃ c cs, q = c :: cs ∧ isNoteLetter c = true) →
      process_label_str_eval L = process_label_str_eval p) ∧
    process_label_str_eval "C4".data = .ok 48 ∧
    process_label_str_eval "C4-E4-G4".data = .ok 48 ∧
    process_label_str_eval "D4-G4".data = .ok 50 ∧
    process_label_str_eval "D6-G6".data = .ok 74 := by
  refine ⟨?_, by decide, by decide, by decide, by decide⟩
  intro L p ps hsplit hdash hall
  obtain ⟨c, cs, hpcc, hc⟩ := hall p (List.mem_cons_self p ps)
  subst hpcc
  have hguard : partsGuard ((c :: cs) :: ps) = .ok true := partsGuard_ok_true _ hall
  have hnot : '-' ∉ c :: cs :=
    sep_not_mem_pySplit '-' L (c :: cs) (by rw [hsplit]; exact List.mem_cons_self _ _)
  have hne : pyElem '-' (c :: cs) = false := by
    cases hb : pyElem '-' (c :: cs)
    · rfl
    · exact absurd ((pyElem_iff _ _).mp hb) hnot
  have hL : process_label_str_eval L = .ok (resolveTokenEval c cs) := by
    simp [process_label_str_eval, hdash, hguard, hsplit]
  have hP : process_label_str_eval (c :: cs) = .ok (resolveTokenEval c cs) := by
    simp [process_label_str_eval, hne, noteOrFallbackEval, hc]
  rw [hL, hP]

theorem chord_root_reduction_witness :
    process_label_str_eval "D4-G4".data = process_label_str_eval "D4".data :=
  chord_root_reduction.1 "D4-G4".data "D4".data ["G4".data] (by decide) (by decide)
    (by
      intro q hq
      simp only [List.mem_cons, List.not_mem_nil, or_false] at hq
      rcases hq with rfl | rfl
      · exact ⟨'D', ['4'], rfl, by decide⟩
      · exact ⟨'G', ['4'], rfl, by decide⟩)

theorem note_map_eval_some {c : Char} {base : ℕ} (h : note_map_eval c = some base) :
    isNoteLetter c = true ∧ pyIsAlpha c = true ∧ base ≤ 11 := by
  unfold note_map_eval at h
  split at h <;> try cases h
  all_goals try simp_all
  all_goals decide

theorem find_acc_of_clean {pre : List Char} (hpre : ∀ y ∈ pre, y ≠ '#' ∧ y ≠ 'b')
    (x : Char) (hx : ((x = '#' : Bool) || (x = 'b' : Bool)) = true) (post : List Char) :
    (pre ++ x :: post).find? (fun ch => ch = '#' || ch = 'b') = some x := by
  induction pre with
  | nil => simp [List.find?, hx]
  | cons y ys ih =>
    have hy := hpre y (List.mem_cons_self _ _)
    have hyf : ((y = '#' : Bool) || (y = 'b' : Bool)) = false := by
      simp [hy.1, hy.2]
    simp only [List.cons_append, List.find?]
    rw [hyf]
    exact ih (fun z hz => hpre z (List.mem_cons.mpr (Or.inr hz)))

theorem find_acc_none_of_clean {l : List Char} (h : ∀ y ∈ l, y ≠ '#' ∧ y ≠ 'b') :
    l.find? (fun ch => ch = '#' || ch = 'b') = none := by
  apply List.find?_eq_none.mpr
  intro x hx
  have hy := h x hx
  simp [hy.1, hy.2]

theorem semitone_add_mul_twelve_mod (s k : ℕ) : (s % 12 + k * 12) % 12 = s % 12 := by
  omega

theorem natural_add_mul_twelve_mod (s k : ℕ) (h : s ≤ 11) : (s + k * 12) % 12 = s := by
  omega

/-- C7: for a note token starting with a letter in `A..G`, the resolved
semitone is the diatonic base of that letter (C 0, D 2, E 4, F 5, G 7,
A 9, B 11) raised by one mod 12 by the first `#` after the letter or
lowered by one mod 12 by the first `b`, with at most one accidental
honored (first match wins) and no E#/B# special-casing: every flat alias
yields the adjacent lower sharp semitone and, uniformly, `E#` yields
semitone 5 and `Cb` yields semitone 11. -/
theorem accidental_first_match_resolution :
    (∀ c base pre post, note_map_eval c = some base →
      (∀ y ∈ pre, y ≠ '#' ∧ y ≠ 'b') →
      resolveTokenEval c (pre ++ '#' :: post) % 12 = (base + 1) % 12) ∧
    (∀ c base pre post, note_map_eval c = some base →
      (∀ y ∈ pre, y ≠ '#' ∧ y ≠ 'b') →
      resolveTokenEval c (pre ++ 'b' :: post) % 12 = (base + 11) % 12) ∧
    (∀ c base rest, note_map_eval c = some base →
      (∀ y ∈ rest, y ≠ '#' ∧ y ≠ 'b') →
      resolveTokenEval c rest % 12 = base) ∧
    process_label_str_eval "Db4".data = .ok 49 ∧
    process_label_str_eval "Eb4".data = .ok 51 ∧
    process_label_str_eval "Gb4".data = .ok 54 ∧
    process_label_str_eval "Ab4".data = .ok 56 ∧
    process_label_str_eval "Bb4".data = .ok 58 ∧
    process_label_str_eval "E#4".data = .ok 53 ∧
    process_label_str_eval "Cb4".data = .ok 59 := by
  refine ⟨?_, ?_, ?_, by decide, by decide, by decide, by decide, by decide,
    by decide, by decide⟩
  · intro c base pre post h hpre
    have hfind := find_acc_of_clean hpre '#' (by decide) post
    simp [resolveTokenEval, h, hfind]
  · intro c base pre post h hpre
    have hfind := find_acc_of_clean hpre 'b' (by decide) post
    simp [resolveTokenEval, h, hfind]
  · intro c base rest h hrest
    have hb := (note_map_eval_some h).2.2
    have hfind := find_acc_none_of_clean hrest
    simp only [resolveTokenEval, h, hfind]
    omega

theorem accidental_first_match_resolution_witness :
    resolveTokenEval 'C' ([] ++ '#' :: "4b".data) % 12 = (0 + 1) % 12 ∧
    resolveTokenEval 'D' ([] ++ 'b' :: "4#".data) % 12 = (2 + 11) % 12 ∧
    resolveTokenEval 'E' "4".data % 12 = 4 :=
  ⟨accidental_first_match_resolution.1 'C' 0 [] "4b".data (by decide) (by simp),
   accidental_first_match_resolution.2.1 'D' 2 [] "4#".data (by decide) (by simp),
   accidental_first_match_resolution.2.2.1 'E' 4 "4".data (by decide) (by decide)⟩

/-- C4: in the multi-hot training encoding, the chord label `C4-E4-G4`
activates exactly the class indices 48, 52 and 55, and a recognized key
label of semitone `s` activates exactly the eight indices `s + 12*octave`
for octave 0..7. -/
theorem multi_hot_encoding :
    process_label_str_train "C4-E4-G4".data = .ok {48, 52, 55} ∧
    (∀ k s, dictLookup full_note_map k = some s →
      process_label_train (RawLabel.keyDict k) =
        .ok ((Finset.range 8).image (fun octave => s + octave * 12)) ∧
      ((Finset.range 8).image (fun octave => s + octave * 12)).card = 8) := by
  refine ⟨by decide, ?_⟩
  intro k s hk
  have hkne : k ≠ "unknown".data := by
    intro heq
    rw [heq] at hk
    rw [show dictLookup full_note_map "unknown".data = none from by decide] at hk
    cases hk
  constructor
  · simp [process_label_train, hkne, hk]
  · have hinj : Function.Injective (fun octave : ℕ => s + octave * 12) := by
      intro a b hab
      simp only at hab
      omega
    rw [Finset.card_image_of_injective _ hinj, Finset.card_range]

theorem multi_hot_encoding_witness :
    process_label_train (RawLabel.keyDict "A#".data) =
      .ok ((Finset.range 8).image (fun octave => 10 + octave * 12)) :=
  (multi_hot_encoding.2 "A#".data 10 (by decide)).1

theorem isNoteLetter_cases {c : Char} (h : isNoteLetter c = true) :
    c = 'A' ∨ c = 'B' ∨ c = 'C' ∨ c = 'D' ∨ c = 'E' ∨ c = 'F' ∨ c = 'G' := by
  simp only [isNoteLetter, pyElem, Bool.or_eq_true, decide_eq_true_eq] at h
  rcases h with h | h | h | h | h | h | h | h
  all_goals first
    | (subst h; simp)
    | exact absurd h (by decide)

theorem takeWhile_acc_nil {tail : List Char}
    (htail : ∀ x ∈ tail, x ≠ '#' ∧ x ≠ 'b' ∧ pyIsAlpha x = false) :
    tail.takeWhile (fun c => pyIsAlpha c || c = '#' || c = 'b') = [] := by
  cases tail with
  | nil => rfl
  | cons t ts =>
    have ht := htail t (List.mem_cons_self _ _)
    simp [List.takeWhile_cons, ht.1, ht.2.1, ht.2.2]

theorem agree_natural (c : Char) (tail : List Char) (s : ℕ)
    (hdict : dictLookup full_note_map [c] = some s)
    (hmap : note_map_eval c = some s)
    (halpha : pyIsAlpha c = true)
    (htail : ∀ x ∈ tail, x ≠ '#' ∧ x ≠ 'b' ∧ pyIsAlpha x = false) :
    resolveTokenTrain (c :: tail) = resolveTokenEval c tail := by
  have hstop := takeWhile_acc_nil htail
  have hfnone : tail.find? (fun ch => ch = '#' || ch = 'b') = none :=
    find_acc_none_of_clean (fun y hy => ⟨(htail y hy).1, (htail y hy).2.1⟩)
  have hname : (c :: tail).takeWhile (fun ch => pyIsAlpha ch || ch = '#' || ch = 'b')
      = [c] := by
    simp [List.takeWhile_cons, halpha, hstop]
  simp only [resolveTokenTrain, hname, List.length_cons, List.length_nil,
    List.drop_succ_cons, List.drop_zero, hdict]
  simp only [resolveTokenEval, hmap, hfnone]

theorem agree_sharp (c : Char) (tail : List Char) (s base : ℕ)
    (hdict : dictLookup full_note_map [c, '#'] = some s)
    (hmap : note_map_eval c = some base)
    (hs : (base + 1) % 12 = s)
    (halpha : pyIsAlpha c = true)
    (htail : ∀ x ∈ tail, x ≠ '#' ∧ x ≠ 'b' ∧ pyIsAlpha x = false) :
    resolveTokenTrain (c :: '#' :: tail) = resolveTokenEval c ('#' :: tail) := by
  have hstop := takeWhile_acc_nil htail
  have hname : (c :: '#' :: tail).takeWhile (fun ch => pyIsAlpha ch || ch = '#' || ch = 'b')
      = [c, '#'] := by
    simp [List.takeWhile_cons, halpha, hstop]
  have hfacc : ('#' :: tail).find? (fun ch => ch = '#' || ch = 'b') = some '#' :=
    List.find?_cons_of_pos _ (by decide)
  have hfdig : ('#' :: tail).find? pyIsDigit = tail.find? pyIsDigit :=
    List.find?_cons_of_neg _ (by decide)
  simp only [resolveTokenTrain, hname, List.length_cons, List.length_nil,
    List.drop_succ_cons, List.drop_zero, hdict]
  simp only [resolveTokenEval, hmap, hfacc, hfdig, if_pos]
  rw [hs]

theorem agree_flat (c : Char) (tail : List Char) (s base : ℕ)
    (hdict : dictLookup full_note_map [c, 'b'] = some s)
    (hmap : note_map_eval c = some base)
    (hs : (base + 11) % 12 = s)
    (halpha : pyIsAlpha c = true)
    (htail : ∀ x ∈ tail, x ≠ '#' ∧ x ≠ 'b' ∧ pyIsAlpha x = false) :
    resolveTokenTrain (c :: 'b' :: tail) = resolveTokenEval c ('b' :: tail) := by
  have hstop := takeWhile_acc_nil htail
  have hname : (c :: 'b' :: tail).takeWhile (fun ch => pyIsAlpha ch || ch = '#' || ch = 'b')
      = [c, 'b'] := by
    simp [List.takeWhile_cons, halpha, hstop]
  have hfacc : ('b' :: tail).find? (fun ch => ch = '#' || ch = 'b') = some 'b' :=
    List.find?_cons_of_pos _ (by decide)
  have hfdig : ('b' :: tail).find? pyIsDigit = tail.find? pyIsDigit :=
    List.find?_cons_of_neg _ (by decide)
  simp only [resolveTokenTrain, hname, List.length_cons, List.length_nil,
    List.drop_succ_cons, List.drop_zero, hdict]
  simp only [resolveTokenEval, hmap, hfacc, hfdig]
  simp only [show ('b' = '#') = False from by simp, if_false]
  rw [hs]

theorem resolve_token_agree (c : Char) (acc tail : List Char)
    (hc : isNoteLetter c = true)
    (hacc : acc = [] ∨ acc = ['#'] ∨ acc = ['b'])
    (hknown : dictLookup full_note_map (c :: acc) ≠ none)
    (htail : ∀ x ∈ tail, x ≠ '#' ∧ x ≠ 'b' ∧ pyIsAlpha x = false) :
    resolveTokenTrain (c :: (acc ++ tail)) = resolveTokenEval c (acc ++ tail) := by
  rcases isNoteLetter_cases hc with rfl | rfl | rfl | rfl | rfl | rfl | rfl
  · rcases hacc with rfl | rfl | rfl
    · exact agree_natural 'A' tail 9 (by decide) (by decide) (by decide) htail
    · exact agree_sharp 'A' tail 10 9 (by decide) (by decide) (by decide) (by decide) htail
    · exact agree_flat 'A' tail 8 9 (by decide) (by decide) (by decide) (by decide) htail
  · rcases hacc with rfl | rfl | rfl
    · exact agree_natural 'B' tail 11 (by decide) (by decide) (by decide) htail
    · exact absurd (show dictLookup full_note_map ['B', '#'] = none from by decide) hknown
    · exact agree_flat 'B' tail 10 11 (by decide) (by decide) (by decide) (by decide) htail
  · rcases hacc with rfl | rfl | rfl
    · exact agree_natural 'C' tail 0 (by decide) (by decide) (by decide) htail
    · exact agree_sharp 'C' tail 1 0 (by decide) (by decide) (by decide) (by decide) htail
    · exact absurd (show dictLookup full_note_map ['C', 'b'] = none from by decide) hknown
  · rcases hacc with rfl | rfl | rfl
    · exact agree_natural 'D' tail 2 (by decide) (by decide) (by decide) htail
    · exact agree_sharp 'D' tail 3 2 (by decide) (by decide) (by decide) (by decide) htail
    · exact agree_flat 'D' tail 1 2 (by decide) (by decide) (by decide) (by decide) htail
  · rcases hacc with rfl | rfl | rfl
    · exact agree_natural 'E' tail 4 (by decide) (by decide) (by decide) htail
    · exact absurd (show dictLookup full_note_map ['E', '#'] = none from by decide) hknown
    · exact agree_flat 'E' tail 3 4 (by decide) (by decide) (by decide) (by decide) htail
  · rcases hacc with rfl | rfl | rfl
    · exact agree_natural 'F' tail 5 (by decide) (by decide) (by decide) htail
    · exact agree_sharp 'F' tail 6 5 (by decide) (by decide) (by decide) (by decide) htail
    · exact absurd (show dictLookup full_note_map ['F', 'b'] = none from by decide) hknown
  · rcases hacc with rfl | rfl | rfl
    · exact agree_natural 'G' tail 7 (by decide) (by decide) (by decide) htail
    · exact agree_sharp 'G' tail 8 7 (by decide) (by decide) (by decide) (by decide) htail
    · exact agree_flat 'G' tail 6 7 (by decide) (by decide) (by decide) (by decide) htail

/-- C5: the claim that the evaluation (one-hot) encoder resolves every
label, and in particular every plain single-note token, to the same class
index as the training (multi-hot) encoder is false: `E#4` resolves to 53
in evaluation (first-accidental arithmetic) but activates only the
fallback class 48 in training (the name `E#` is not a key of the training
note map). -/
theorem eval_train_divergence_counterexample :
    process_label_str_eval "E#4".data = .ok 53 ∧
    process_label_str_train "E#4".data = .ok {48} ∧
    (53 : ℕ) ∉ ({48} : Finset ℕ) := by decide

/-- C5 amended: for every single-note token made of a letter in `A..G`,
an optional single accidental `#` or `b`, and a suffix free of letters,
accidentals and hyphens (for example an octave digit), whose letter plus
accidental name is a key of the training note map (which excludes the
enharmonic aliases E#, B#, Cb, Fb), the evaluation encoder and the
training encoder activate exactly the same single class index. -/
theorem eval_train_agreement :
    ∀ c acc tail, isNoteLetter c = true →
      (acc = [] ∨ acc = ['#'] ∨ acc = ['b']) →
      dictLookup full_note_map (c :: acc) ≠ none →
      (∀ x ∈ tail, x ≠ '#' ∧ x ≠ 'b' ∧ x ≠ '-' ∧ pyIsAlpha x = false) →
      ∃ i, process_label_str_eval (c :: (acc ++ tail)) = .ok i ∧
        process_label_str_train (c :: (acc ++ tail)) = .ok {i} := by
  intro c acc tail hc hacc hknown htail
  have hnot : '-' ∉ c :: (acc ++ tail) := by
    intro hm
    rcases List.mem_cons.mp hm with h | h
    · rw [← h] at hc
      exact absurd hc (by decide)
    · rcases List.mem_append.mp h with h2 | h2
      · rcases hacc with rfl | rfl | rfl
        · simp at h2
        · simp at h2
        · simp at h2
      · exact (htail '-' h2).2.2.1 rfl
  have hne : pyElem '-' (c :: (acc ++ tail)) = false := by
    cases hb : pyElem '-' (c :: (acc ++ tail))
    · rfl
    · exact absurd ((pyElem_iff _ _).mp hb) hnot
  refine ⟨resolveTokenEval c (acc ++ tail), ?_, ?_⟩
  · simp [process_label_str_eval, hne, noteOrFallbackEval, hc]
  · have hagree := resolve_token_agree c acc tail hc hacc hknown
      (fun x hx => ⟨(htail x hx).1, (htail x hx).2.1, (htail x hx).2.2.2⟩)
    simp [process_label_str_train, hne, noteOrFallbackTrain, hc, hagree]

theorem eval_train_agreement_witness :
    ∃ i, process_label_str_eval ('A' :: (['#'] ++ ['3'])) = .ok i ∧
      process_label_str_train ('A' :: (['#'] ++ ['3'])) = .ok {i} :=
  eval_train_agreement 'A' ['#'] ['3'] (by decide) (Or.inr (Or.inl rfl)) (by decide)
    (by
      intro x hx
      simp only [List.mem_singleton] at hx
      subst hx
      refine ⟨by decide, by decide, by decide, by decide⟩)

theorem insertAsc_perm (le : ℕ → ℕ → Bool) (x : ℕ) (l : List ℕ) :
    (insertAsc le x l).Perm (x :: l) := by
  induction l with
  | nil => exact List.Perm.refl _
  | cons y ys ih =>
    simp only [insertAsc]
    by_cases h : le x y = true
    · rw [if_pos h]
    · rw [if_neg h]
      exact (List.Perm.cons y ih).trans (List.Perm.swap x y ys)

theorem insertionSort_perm (le : ℕ → ℕ → Bool) (l : List ℕ) :
    (insertionSort le l).Perm l := by
  induction l with
  | nil => exact List.Perm.refl _
  | cons x xs ih =>
    exact (insertAsc_perm le x (insertionSort le xs)).trans (List.Perm.cons x ih)

theorem insertAsc_pairwise (le : ℕ → ℕ → Bool)
    (htot : ∀ a b, le a b = true ∨ le b a = true)
    (htrans : ∀ a b c, le a b = true → le b c = true → le a c = true)
    (x : ℕ) (l : List ℕ) (hl : l.Pairwise (fun a b => le a b = true)) :
    (insertAsc le x l).Pairwise (fun a b => le a b = true) := by
  induction l with
  | nil => simp [insertAsc]
  | cons y ys ih =>
    rcases List.pairwise_cons.mp hl with ⟨hy, hys⟩
    simp only [insertAsc]
    by_cases h : le x y = true
    · rw [if_pos h]
      refine List.pairwise_cons.mpr ⟨?_, hl⟩
      intro z hz
      rcases List.mem_cons.mp hz with rfl | hz2
      · exact h
      · exact htrans x y z h (hy z hz2)
    · rw [if_neg h]
      have hyx : le y x = true := (htot x y).resolve_left h
      refine List.pairwise_cons.mpr ⟨?_, ih hys⟩
      intro z hz
      have hmem := (insertAsc_perm le x ys).mem_iff.mp hz
      rcases List.mem_cons.mp hmem with rfl | hz2
      · exact hyx
      · exact hy z hz2

theorem insertionSort_pairwise (le : ℕ → ℕ → Bool)
    (htot : ∀ a b, le a b = true ∨ le b a = true)
    (htrans : ∀ a b c, le a b = true → le b c = true → le a c = true)
    (l : List ℕ) :
    (insertionSort le l).Pairwise (fun a b => le a b = true) := by
  induction l with
  | nil => simp [insertionSort]
  | cons x xs ih => exact insertAsc_pairwise le htot htrans x _ ih

theorem argsortLe_total (v : List ℚ) :
    ∀ a b, argsortLe v a b = true ∨ argsortLe v b a = true := by
  intro a b
  unfold argsortLe
  rcases lt_trichotomy (vget v a) (vget v b) with h | h | h
  · exact Or.inl (decide_eq_true (Or.inl h))
  · rcases le_total a b with h2 | h2
    · exact Or.inl (decide_eq_true (Or.inr ⟨h, h2⟩))
    · exact Or.inr (decide_eq_true (Or.inr ⟨h.symm, h2⟩))
  · exact Or.inr (decide_eq_true (Or.inl h))

theorem argsortLe_trans (v : List ℚ) :
    ∀ a b c, argsortLe v a b = true → argsortLe v b c = true →
      argsortLe v a c = true := by
  intro a b c hab hbc
  have h1 := of_decide_eq_true hab
  have h2 := of_decide_eq_true hbc
  apply decide_eq_true
  rcases h1 with h1 | ⟨h1e, h1i⟩ <;> rcases h2 with h2 | ⟨h2e, h2i⟩
  · exact Or.inl (h1.trans h2)
  · exact Or.inl (by rw [← h2e]; exact h1)
  · exact Or.inl (by rw [h1e]; exact h2)
  · exact Or.inr ⟨h1e.trans h2e, h1i.trans h2i⟩

theorem np_argsort_pairwise (v : List ℚ) :
    (np_argsort v).Pairwise (fun a b => argsortLe v a b = true) :=
  insertionSort_pairwise _ (argsortLe_total v) (argsortLe_trans v) _

theorem np_argsort_perm (v : List ℚ) :
    (np_argsort v).Perm (List.range v.length) :=
  insertionSort_perm _ _

theorem np_argsort_nodup (v : List ℚ) : (np_argsort v).Nodup :=
  (np_argsort_perm v).nodup_iff.mpr (List.nodup_range _)

/-- C8 amended: the decoded top-`n` index list is ordered by strictly
descending confidence except on ties, and on every tie of confidence the
entry with the HIGHER original index comes first (because the ascending
argsort, modelled as the deterministic stable sort, is reversed);
the claimed lower-index-first tie order does not hold. -/
theorem top_notes_order :
    ∀ (v : List ℚ) (n : ℕ),
      (top_indices v n).Pairwise
        (fun i j => vget v j < vget v i ∨ (vget v i = vget v j ∧ j < i)) := by
  intro v n
  have hcomb : (np_argsort v).Pairwise
      (fun a b => argsortLe v a b = true ∧ a ≠ b) :=
    (np_argsort_pairwise v).and (np_argsort_nodup v)
  have hlast : (pyLastN (np_argsort v) n).Pairwise
      (fun a b => argsortLe v a b = true ∧ a ≠ b) := by
    unfold pyLastN
    split
    · exact hcomb
    · exact hcomb.sublist (List.drop_sublist _ _)
  unfold top_indices
  rw [List.pairwise_reverse]
  apply hlast.imp
  intro a b hab
  rcases hab with ⟨hle, hne⟩
  rcases of_decide_eq_true hle with h | ⟨he, hi⟩
  · exact Or.inl h
  · exact Or.inr ⟨he.symm, lt_of_le_of_ne hi hne⟩

/-- C8: the claim that equal-confidence entries are ordered with the
lower original index first is false: on a 96-score vector whose entries
0 and 1 share the top confidence, the decoded top-5 list starts with
index 1 (name `C#0`) and only then index 0 (name `C0`). -/
theorem tie_order_counterexample :
    top_indices ((5 : ℚ) :: 5 :: List.replicate 94 0) 5 = [1, 0, 95, 94, 93] ∧
    vget ((5 : ℚ) :: 5 :: List.replicate 94 0) 0 =
      vget ((5 : ℚ) :: 5 :: List.replicate 94 0) 1 ∧
    (get_top_notes ((5 : ℚ) :: 5 :: List.replicate 94 0) 5).1 =
      ["C#0".data, "C0".data, "B7".data, "A#7".data, "A7".data] ∧
    ¬ (top_indices ((5 : ℚ) :: 5 :: List.replicate 94 0) 5).Pairwise
        (fun i j =>
          vget ((5 : ℚ) :: 5 :: List.replicate 94 0) j <
              vget ((5 : ℚ) :: 5 :: List.replicate 94 0) i ∨
            (vget ((5 : ℚ) :: 5 :: List.replicate 94 0) i =
                vget ((5 : ℚ) :: 5 :: List.replicate 94 0) j ∧ i < j)) := by
  decide

theorem top_indices_length (v : List ℚ) (n : ℕ) (hn : n ≠ 0) (hlen : n ≤ v.length) :
    (top_indices v n).length = n := by
  unfold top_indices pyLastN
  rw [if_neg hn, List.length_reverse, List.length_drop,
    (np_argsort_perm v).length_eq, List.length_range]
  omega

theorem top_indices_mem (v : List ℚ) (n : ℕ) {i : ℕ} (h : i ∈ top_indices v n) :
    i < v.length := by
  unfold top_indices pyLastN at h
  rw [List.mem_reverse] at h
  have hmem : i ∈ np_argsort v := by
    split at h
    · exact h
    · exact List.mem_of_mem_drop h
  have := (np_argsort_perm v).mem_iff.mp hmem
  exact List.mem_range.mp this

theorem top_indices_nodup (v : List ℚ) (n : ℕ) : (top_indices v n).Nodup := by
  unfold top_indices pyLastN
  rw [List.nodup_reverse]
  split
  · exact np_argsort_nodup v
  · exact (np_argsort_nodup v).sublist (List.drop_sublist _ _)

set_option maxRecDepth 100000 in
theorem decode_name_inj_fin :
    ∀ i : Fin 96, ∀ j : Fin 96, decode_name i.1 = decode_name j.1 → i = j := by
  decide

theorem decode_name_inj {i j : ℕ} (hi : i < 96) (hj : j < 96)
    (h : decode_name i = decode_name j) : i = j := by
  have := decode_name_inj_fin ⟨i, hi⟩ ⟨j, hj⟩ h
  simpa using congrArg Fin.val this

theorem devSum_self_nonneg (a : List ℚ) : 0 ≤ devSum a a := by
  unfold devSum
  apply List.sum_nonneg
  intro x hx
  rw [List.zipWith_same] at hx
  rcases List.mem_map.mp hx with ⟨y, _, rfl⟩
  exact mul_self_nonneg _

/-- C9: the claim that comparing any two identical 96-length score
vectors yields correlation 1.0 is false for a constant vector: NumPy's
`corrcoef` divides by a zero standard deviation there and yields NaN
(modelled as `none`), not 1.0. -/
theorem identical_constant_counterexample :
    (compare_predictions (List.replicate 96 (0 : ℚ))
        (List.replicate 96 (0 : ℚ))).correlation = none ∧
    (none : Option ℝ) ≠ some 1 := by
  constructor
  · have hmean : np_mean (List.replicate 96 (0 : ℚ)) = 0 := by
      unfold np_mean
      rw [List.sum_replicate, smul_zero, zero_div]
    have h : devSum (List.replicate 96 (0 : ℚ)) (List.replicate 96 (0 : ℚ)) = 0 := by
      unfold devSum
      rw [List.zipWith_same]
      apply List.sum_eq_zero
      intro x hx
      rcases List.mem_map.mp hx with ⟨y, hy, rfl⟩
      have hy0 : y = 0 := List.eq_of_mem_replicate hy
      subst hy0
      rw [hmean]
      norm_num
    have hcorr : np_corrcoef (List.replicate 96 (0 : ℚ)) (List.replicate 96 (0 : ℚ))
        = none := by
      unfold np_corrcoef
      rw [if_pos (Or.inl h)]
    simpa only [compare_predictions] using hcorr
  · simp

/-- C9 amended: for every pair of identical 96-length score vectors of
nonzero variance, the comparison reports mae 0, mse 0, correlation 1,
top-5 overlap 5 and a matching top-1 note; for a zero-variance (constant)
vector the correlation is undefined (NaN) instead of 1. -/
theorem identical_vectors_agreement :
    ∀ a : List ℚ, a.length = 96 → devSum a a ≠ 0 →
      (compare_predictions a a).mae = 0 ∧
      (compare_predictions a a).mse = 0 ∧
      (compare_predictions a a).correlation = some 1 ∧
      (compare_predictions a a).overlap = 5 ∧
      (compare_predictions a a).top_note_match = true := by
  intro a hlen hvar
  have hmae : np_mae a a = 0 := by
    unfold np_mae np_mean
    rw [List.zipWith_same]
    have hz : ∀ x ∈ List.map (fun x : ℚ => |x - x|) a, x = 0 := by
      intro x hx
      rcases List.mem_map.mp hx with ⟨y, _, rfl⟩
      simp
    rw [List.sum_eq_zero hz, zero_div]
  have hmse : np_mse a a = 0 := by
    unfold np_mse np_mean
    rw [List.zipWith_same]
    have hz : ∀ x ∈ List.map (fun x : ℚ => (x - x) ^ 2) a, x = 0 := by
      intro x hx
      rcases List.mem_map.mp hx with ⟨y, _, rfl⟩
      simp
    rw [List.sum_eq_zero hz, zero_div]
  have hcorr : np_corrcoef a a = some 1 := by
    unfold np_corrcoef
    rw [if_neg (by simp [hvar])]
    congr 1
    have hpos : (0 : ℚ) ≤ devSum a a := devSum_self_nonneg a
    have hR : (0 : ℝ) ≤ (devSum a a : ℝ) := by exact_mod_cast hpos
    rw [Real.mul_self_sqrt hR]
    apply div_self
    exact_mod_cast hvar
  have hlen5 : (top_indices a 5).length = 5 :=
    top_indices_length a 5 (by decide) (by omega)
  have hnames : ((top_indices a 5).map decode_name).Nodup := by
    refine List.Nodup.map_on ?_ (top_indices_nodup a 5)
    intro x hx y hy hf
    exact decode_name_inj (hlen ▸ top_indices_mem a 5 hx)
      (hlen ▸ top_indices_mem a 5 hy) hf
  have hoverlap : ((get_top_notes a 5).1.toFinset ∩ (get_top_notes a 5).1.toFinset).card
      = 5 := by
    rw [Finset.inter_self]
    have h1 : (get_top_notes a 5).1 = (top_indices a 5).map decode_name := rfl
    rw [h1, List.toFinset_card_of_nodup hnames, List.length_map, hlen5]
  refine ⟨?_, ?_, ?_, ?_, ?_⟩
  · simpa [compare_predictions] using hmae
  · simpa [compare_predictions] using hmse
  · simpa [compare_predictions] using hcorr
  · simpa [compare_predictions] using hoverlap
  · simp [compare_predictions]

theorem witness_vector_devSum :
    devSum (List.replicate 48 (1 : ℚ) ++ List.replicate 48 (-1))
      (List.replicate 48 (1 : ℚ) ++ List.replicate 48 (-1)) = 96 := by
  have hsum : (List.replicate 48 (1 : ℚ) ++ List.replicate 48 (-1)).sum = 0 := by
    rw [List.sum_append, List.sum_replicate, List.sum_replicate]
    norm_num
  have hmean : np_mean (List.replicate 48 (1 : ℚ) ++ List.replicate 48 (-1)) = 0 := by
    unfold np_mean
    rw [hsum, zero_div]
  unfold devSum
  rw [List.zipWith_same]
  have hmap :
      List.map
        (fun a =>
          (a - np_mean (List.replicate 48 (1 : ℚ) ++ List.replicate 48 (-1))) *
            (a - np_mean (List.replicate 48 (1 : ℚ) ++ List.replicate 48 (-1))))
        (List.replicate 48 (1 : ℚ) ++ List.replicate 48 (-1)) =
      List.replicate 96 1 := by
    apply List.eq_replicate_iff.mpr
    refine ⟨by simp, ?_⟩
    intro b hb
    rcases List.mem_map.mp hb with ⟨y, hy, rfl⟩
    rcases List.mem_append.mp hy with hy2 | hy2
    · rw [List.eq_of_mem_replicate hy2, hmean]
      norm_num
    · rw [List.eq_of_mem_replicate hy2, hmean]
      norm_num
  rw [hmap, List.sum_replicate]
  norm_num

theorem identical_vectors_agreement_witness :
    (compare_predictions (List.replicate 48 (1 : ℚ) ++ List.replicate 48 (-1))
        (List.replicate 48 (1 : ℚ) ++ List.replicate 48 (-1))).mae = 0 ∧
    (compare_predictions (List.replicate 48 (1 : ℚ) ++ List.replicate 48 (-1))
        (List.replicate 48 (1 : ℚ) ++ List.replicate 48 (-1))).correlation = some 1 ∧
    (compare_predictions (List.replicate 48 (1 : ℚ) ++ List.replicate 48 (-1))
        (List.replicate 48 (1 : ℚ) ++ List.replicate 48 (-1))).overlap = 5 := by
  have hne : devSum (List.replicate 48 (1 : ℚ) ++ List.replicate 48 (-1))
      (List.replicate 48 (1 : ℚ) ++ List.replicate 48 (-1)) ≠ 0 := by
    rw [witness_vector_devSum]
    norm_num
  have H := identical_vectors_agreement
    (List.replicate 48 (1 : ℚ) ++ List.replicate 48 (-1)) (by simp) hne
  exact ⟨H.1, H.2.2.1, H.2.2.2.1⟩

/-- C10: the claim that an unsupported taxonomy argument makes label
extraction raise is false: the source's final default branch logs a
warning and returns the string `unknown`, silently defaulting. -/
theorem unsupported_taxonomy_counterexample :
    get_label_from_path "data/test.wav".data "bogus".data = .str "unknown".data := by
  decide

/-- C10 amended: for every path, a label-taxonomy argument outside
`note`, `chord`, `key_tuning` makes `get_label_from_path` return the
fallback label `unknown` (with a logged warning); it does not raise. -/
theorem unsupported_taxonomy_amended :
    ∀ audio_path label_type, label_type ≠ "note".data →
      label_type ≠ "chord".data → label_type ≠ "key_tuning".data →
      get_label_from_path audio_path label_type = .str "unknown".data := by
  intro p t h1 h2 h3
  simp only [get_label_from_path]
  rw [if_neg h1, if_neg h2, if_neg h3]

theorem unsupported_taxonomy_amended_witness :
    get_label_from_path "a/b.wav".data "labels".data = .str "unknown".data :=
  unsupported_taxonomy_amended "a/b.wav".data "labels".data
    (by decide) (by decide) (by decide)

end BlueSharp
